import Mathlib

/-!
Shallow embedding of `src/xls_deid.py` (an Excel/CSV de-identification tool).

The program's core consists of:
  * a process-wide identifying-term registry (`identifying_strings`,
    `update_identifying_list_add`, `update_identifying_list_remove`, `reset`);
  * a first-pass, name-based column matcher (`identify_columns`);
  * a second-pass, value-based column matcher (`second_pass_identification`);
  * a column remover / exporter (`process_file`).

Data model: a pandas DataFrame is embedded as a header list plus a row-major
list of rows of cells.  Cells are null (NaN), text, or integer; Python's
`str()` / pandas `astype(str)` stringification is embedded by `Cell.pyStr`
(NaN stringifies to "nan", as in pandas).  Python's `str.lower()` and
`str.strip()` are embedded by `pyLower` and `pyStrip` (ASCII case folding,
whitespace trimming at both ends).  File I/O (reading the uploaded file,
writing the output) is fallible in the program; `process_file` is embedded on
an already-parsed table, with the two argument guards of the source kept, so
a successful run of the source corresponds to an `Except.ok` result here.
-/

/-- A cell of a loaded table: null (pandas NaN), a text value, or an integer. -/
inductive Cell where
  | null : Cell
  | str : String → Cell
  | int : Int → Cell
deriving DecidableEq

/-- Python/pandas stringification of a cell: `str(cell)` and `astype(str)`.
pandas renders NaN as the string "nan". -/
def Cell.pyStr : Cell → String
  | .null => "nan"
  | .str s => s
  | .int n => toString n

/-- Embeds `pd.isna` on a single cell (used through `dropna`). -/
def Cell.isNull : Cell → Bool
  | .null => true
  | _ => false

/-- A pandas DataFrame: column headers and row-major cell data.
pandas keeps tables rectangular (every row has one cell per header);
theorems that need this take it as a hypothesis. -/
structure Table where
  headers : List String
  rows : List (List Cell)
deriving DecidableEq

/-- Column access `df[c]`: the cells of the column named `c`, or `none` when
there is no such column (a Python `KeyError`). -/
def columnOf (df : Table) (c : String) : Option (List Cell) :=
  (df.headers.findIdx? (fun h => h = c)).map
    (fun i => df.rows.map (fun r => r.getD i Cell.null))

/-! ## Identifying-term registry (lines 7, 9-41, 257-277 of the source) -/

/-- The list the registry is initialized with at startup (line 7). -/
def identifying_strings : List String :=
  ["name", "dob", "birth", "date", "mrn", "first", "last", "address", "ssn", "middle"]

/-- The list the `reset` handler assigns to the registry (line 265). -/
def reset_identifying_strings : List String := ["name", "dob"]

/-- Embeds Python `str.lower()` (ASCII letters, which is also all
`Char.toLower` folds). -/
def pyLower (s : String) : String := ⟨s.data.map Char.toLower⟩

/-- Embeds Python `str.strip()`: drop whitespace from both ends. -/
def pyStrip (s : String) : String :=
  ⟨((s.data.dropWhile Char.isWhitespace).reverse.dropWhile Char.isWhitespace).reverse⟩

/-- `update_identifying_list_add`: the state transition on the registry list.
Python: if the string is truthy (nonempty), lowercase it and append it when
not already present.  (The source returns a joined display string; the claims
are about the registry state, so the updated list is returned.) -/
def update_identifying_list_add (l : List String) (new_string : String) : List String :=
  if new_string = "" then l
  else
    let s := pyLower new_string
    if l.contains s then l else l ++ [s]

/-- `update_identifying_list_remove`: if the string is nonempty, lowercase it
and remove its first occurrence when present (`list.remove`). -/
def update_identifying_list_remove (l : List String) (new_string : String) : List String :=
  if new_string = "" then l
  else
    let s := pyLower new_string
    if l.contains s then l.erase s else l

/-! ## First-pass matcher (`identify_columns`, lines 43-60) -/

/-- Embeds Python's substring test `needle in hay` on the underlying
character lists. -/
def strContains (needle hay : String) : Bool :=
  go needle.data hay.data
where
  go (n : List Char) : List Char → Bool
    | [] => n.isEmpty
    | c :: rest => n.isPrefixOf (c :: rest) || go n rest

/-- `identify_columns`: normalize each column name (lowercase, strip) and keep
the columns whose normalized name contains some identifying term.  The inner
Python loop appends on the first matching term and breaks, which is the
`List.any` short-circuit; the original (un-normalized) name is kept. -/
def identify_columns (terms : List String) (cols : List String) : List String :=
  cols.filter (fun c => terms.any (fun t => strContains t (pyStrip (pyLower c))))

/-! ## Second-pass matcher (`second_pass_identification`, lines 62-91) -/

/-- The `pii_values` collection loop (lines 74-79): for each selected column,
take its non-null cells and stringify them.  A missing column name is a
Python `KeyError`, embedded as `none`.  (The source dedups via a Python set;
only membership in the collection is ever used, so a list suffices.) -/
def collect_pii (df : Table) : List String → Option (List String)
  | [] => some []
  | c :: rest => do
    let col ← columnOf df c
    let pii ← collect_pii df rest
    pure (((col.filter (fun x => !x.isNull)).map Cell.pyStr) ++ pii)

/-- `second_pass_identification`: a column not in the first-pass selection is
flagged when any of its cells — stringified by `astype(str)`, nulls included —
is a member of the collected value set (`isin`). -/
def second_pass_identification (df : Table) (selected : List String) : Option (List String) :=
  (collect_pii df selected).map (fun pii =>
    df.headers.filter (fun c =>
      !selected.contains c &&
        (((columnOf df c).getD []).map Cell.pyStr).any (fun s => pii.contains s)))

/-! ## Column remover / exporter (`process_file`, lines 145-192) -/

/-- Whether a column named `c` survives `df.drop(columns=names, errors=ignore)`. -/
def keepCol (names : List String) (c : String) : Bool := !names.contains c

/-- One row after the drop: the cells at the positions of the kept headers. -/
def dropRow (headers names : List String) (row : List Cell) : List Cell :=
  ((headers.zip row).filter (fun p => keepCol names p.1)).map Prod.snd

/-- `df.drop(columns=names, errors=ignore)`: listed columns are removed,
names not present are ignored, rows are kept. -/
def dropColumns (df : Table) (names : List String) : Table :=
  ⟨df.headers.filter (keepCol names), df.rows.map (dropRow df.headers names)⟩

/-- `process_file` on a parsed table.  `file` is the uploaded file (its base
name and its parsed table) or `none`; the two guards of the source are kept:
no file, and empty output name.  The union `list(set(s1 + s2))` is embedded
as the concatenation — only membership in it is used by the drop.  The final
output name is prefixed when it collides with the input's base name.  The
write itself is I/O; its effect on a file store is modelled by `writeFS`. -/
def process_file (file : Option (String × Table)) (output_file_name : String)
    (sel1 sel2 : List String) : Except String (String × Table) :=
  match file with
  | none => .error "No file uploaded."
  | some (input_file_name, df) =>
    if output_file_name = "" then .error "Please specify an output file name."
    else
      let all_selected_columns := sel1 ++ sel2
      let df_deidentified := dropColumns df all_selected_columns
      let out :=
        if output_file_name = input_file_name then "deidentified_" ++ output_file_name
        else output_file_name
      .ok (out, df_deidentified)

/-- A file store as a map from names to table contents; `writeFS` is the
effect of writing the exported table under its final name. -/
def writeFS (fs : String → Option Table) (name : String) (t : Table) :
    String → Option Table :=
  fun n => if n = name then some t else fs n

/-! ## Helper lemmas -/

/-- The recursive substring scan finds exactly the infix occurrences. -/
lemma strContains_go_iff (n : List Char) :
    ∀ h : List Char, strContains.go n h = true ↔ ∃ pre post, pre ++ n ++ post = h
  | [] => by
    simp [strContains.go, List.isEmpty_iff, List.append_eq_nil]
  | c :: rest => by
    rw [strContains.go]
    constructor
    · intro hor
      rcases Bool.or_eq_true_iff.mp hor with hpre | hrec
      · rcases List.isPrefixOf_iff_prefix.mp hpre with ⟨post, hpost⟩
        exact ⟨[], post, by simpa using hpost⟩
      · rcases (strContains_go_iff n rest).mp hrec with ⟨pre, post, hp⟩
        exact ⟨c :: pre, post, by simp [hp]⟩
    · rintro ⟨pre, post, hp⟩
      rcases pre with _ | ⟨a, pre⟩
      · exact Bool.or_eq_true_iff.mpr (Or.inl
          (List.isPrefixOf_iff_prefix.mpr ⟨post, by simpa using hp⟩))
      · refine Bool.or_eq_true_iff.mpr (Or.inr ((strContains_go_iff n rest).mpr ?_))
        simp only [List.cons_append, List.cons.injEq] at hp
        exact ⟨pre, post, hp.2⟩

/-- Python's `needle in hay` holds exactly when the needle's characters occur
contiguously inside the hay's characters. -/
lemma strContains_iff (n h : String) :
    strContains n h = true ↔ ∃ pre post, pre ++ n.data ++ post = h.data :=
  strContains_go_iff n.data h.data

/-- A present column name is found by `columnOf`. -/
lemma columnOf_isSome_of_mem {df : Table} {c : String} (hc : c ∈ df.headers) :
    ∃ cells, columnOf df c = some cells := by
  unfold columnOf
  rcases hi : df.headers.findIdx? (fun h => h = c) with _ | i
  · rw [List.findIdx?_eq_none_iff] at hi
    have := hi c hc
    simp at this
  · exact ⟨_, rfl⟩

/-- An absent column name makes `columnOf` fail (Python `KeyError`). -/
lemma columnOf_eq_none_of_not_mem {df : Table} {c : String} (hc : c ∉ df.headers) :
    columnOf df c = none := by
  unfold columnOf
  rw [List.findIdx?_eq_none_iff.mpr]
  · rfl
  · intro x hx
    simp only [decide_eq_false_iff_not]
    rintro rfl
    exact hc hx

/-- When every selected name is a column, `collect_pii` succeeds and collects
exactly the stringified non-null cells of the selected columns. -/
lemma collect_pii_some {df : Table} :
    ∀ {sel : List String}, (∀ c ∈ sel, c ∈ df.headers) →
      ∃ pii, collect_pii df sel = some pii ∧
        ∀ v, v ∈ pii ↔ ∃ s ∈ sel, ∃ cell ∈ (columnOf df s).getD [],
          cell.isNull = false ∧ cell.pyStr = v
  | [], _ => ⟨[], rfl, by simp⟩
  | c :: rest, h => by
    obtain ⟨col, hcol⟩ := columnOf_isSome_of_mem (h c (by simp))
    obtain ⟨piiR, hR, hiffR⟩ := collect_pii_some (fun x hx => h x (List.mem_cons_of_mem c hx))
    refine ⟨((col.filter (fun x => !x.isNull)).map Cell.pyStr) ++ piiR, ?_, ?_⟩
    · simp [collect_pii, hcol, hR]
    · intro v
      simp only [List.mem_append, List.mem_map, List.mem_filter, hiffR,
        List.mem_cons, Bool.not_eq_true']
      constructor
      · rintro (⟨cell, ⟨hmem, hnn⟩, hv⟩ | ⟨s, hs, cell, hmem, hnn, hv⟩)
        · exact ⟨c, Or.inl rfl, cell, by simpa [hcol] using hmem, hnn, hv⟩
        · exact ⟨s, Or.inr hs, cell, hmem, hnn, hv⟩
      · rintro ⟨s, rfl | hs, cell, hmem, hnn, hv⟩
        · exact Or.inl ⟨cell, ⟨by simpa [hcol] using hmem, hnn⟩, hv⟩
        · exact Or.inr ⟨s, hs, cell, hmem, hnn, hv⟩

/-- A selection containing an unknown column name makes `collect_pii` fail. -/
lemma collect_pii_none {df : Table} :
    ∀ {sel : List String}, (∃ c ∈ sel, c ∉ df.headers) → collect_pii df sel = none
  | [], h => by simp at h
  | c :: rest, h => by
    by_cases hc : c ∈ df.headers
    · obtain ⟨col, hcol⟩ := columnOf_isSome_of_mem hc
      have : ∃ x ∈ rest, x ∉ df.headers := by
        rcases h with ⟨x, hx, hxn⟩
        rcases List.mem_cons.mp hx with rfl | hxr
        · exact absurd hc hxn
        · exact ⟨x, hxr, hxn⟩
      simp [collect_pii, hcol, collect_pii_none this]
    · simp [collect_pii, columnOf_eq_none_of_not_mem hc]

/-- Filtering a zipped row on the kept headers and re-zipping with the kept
headers recovers exactly the kept (header, cell) pairs. -/
lemma zip_filter_keep (p : String → Bool) :
    ∀ (h : List String) (r : List Cell), h.length = r.length →
      (h.filter p).zip (((h.zip r).filter (fun q => p q.1)).map Prod.snd) =
        (h.zip r).filter (fun q => p q.1)
  | [], [], _ => rfl
  | [], _ :: _, hl => by simp at hl
  | _ :: _, [], hl => by simp at hl
  | a :: h, b :: r, hl => by
    have hl' : h.length = r.length := by simpa using hl
    by_cases hpa : p a
    · simp [List.filter_cons, hpa, zip_filter_keep p h r hl']
    · simp [List.filter_cons, hpa, zip_filter_keep p h r hl']

/-- Prefixing with "deidentified_" always changes the name. -/
lemma deidentified_ne (s : String) : "deidentified_" ++ s ≠ s := by
  intro h
  have hlen := congrArg String.length h
  rw [String.length_append] at hlen
  have h13 : ("deidentified_" : String).length = 13 := rfl
  rw [h13] at hlen
  omega

/-! ## Claim theorems -/

/-- C5: the claim says `reset()` restores the registry to the built-in
default term set from startup.  The code does not: `reset` assigns the
two-element list `["name", "dob"]`, while the startup default has ten terms.
This theorem evaluates both lists and shows they differ (the code also
contradicts its own docstring, "Resets all inputs and outputs to their
default states"). -/
theorem reset_differs_from_startup_default :
    reset_identifying_strings ≠ identifying_strings ∧
    reset_identifying_strings = ["name", "dob"] ∧
    identifying_strings = ["name", "dob", "birth", "date", "mrn", "first",
      "last", "address", "ssn", "middle"] := by
  refine ⟨?_, rfl, rfl⟩
  decide

/-- C8: registry algebra.  Adding the same term twice equals adding it once;
adding the empty string is a no-op; removing an absent term is a no-op; both
operations act only on the lowercased argument — anything `add` introduces is
the lowercased term, and anything `remove` deletes is the lowercased term. -/
theorem registry_update_spec (l : List String) (t : String) :
    update_identifying_list_add (update_identifying_list_add l t) t =
      update_identifying_list_add l t
  ∧ update_identifying_list_add l "" = l
  ∧ (pyLower t ∉ l → update_identifying_list_remove l t = l)
  ∧ (∀ x ∈ update_identifying_list_add l t, x ∈ l ∨ x = pyLower t)
  ∧ (∀ x ∈ l, x ∉ update_identifying_list_remove l t → x = pyLower t) := by
  refine ⟨?_, ?_, ?_, ?_, ?_⟩
  · by_cases ht : t = ""
    · simp [update_identifying_list_add, ht]
    · by_cases hc : pyLower t ∈ l
      · simp [update_identifying_list_add, ht, hc]
      · simp [update_identifying_list_add, ht, hc]
  · simp [update_identifying_list_add]
  · intro habs
    by_cases ht : t = "" <;> simp [update_identifying_list_remove, ht, habs]
  · intro x hx
    by_cases ht : t = ""
    · left
      simpa [update_identifying_list_add, ht] using hx
    · by_cases hc : pyLower t ∈ l
      · left
        simpa [update_identifying_list_add, ht, hc] using hx
      · have : update_identifying_list_add l t = l ++ [pyLower t] := by
          simp [update_identifying_list_add, ht, hc]
        rw [this] at hx
        simpa using hx
  · intro x hxl hxr
    by_cases ht : t = ""
    · rw [update_identifying_list_remove, if_pos ht] at hxr
      exact absurd hxl hxr
    · by_cases hc : pyLower t ∈ l
      · have : update_identifying_list_remove l t = l.erase (pyLower t) := by
          simp [update_identifying_list_remove, ht, hc]
        rw [this] at hxr
        by_contra hne
        exact hxr ((List.mem_erase_of_ne hne).mpr hxl)
      · have : update_identifying_list_remove l t = l := by
          simp [update_identifying_list_remove, ht, hc]
        rw [this] at hxr
        exact absurd hxl hxr

/-- Witness for C8 at a concrete registry and term. -/
theorem registry_update_spec_witness :
    (pyLower "ZIP" ∉ ["name", "dob"]
      → update_identifying_list_remove ["name", "dob"] "ZIP" = ["name", "dob"])
  ∧ update_identifying_list_add (update_identifying_list_add ["name", "dob"] "ZIP") "ZIP" =
      update_identifying_list_add ["name", "dob"] "ZIP"
  ∧ update_identifying_list_add ["name", "dob"] "" = ["name", "dob"]
  ∧ (∀ x ∈ update_identifying_list_add ["name", "dob"] "ZIP",
      x ∈ ["name", "dob"] ∨ x = pyLower "ZIP") :=
  have h := registry_update_spec ["name", "dob"] "ZIP"
  ⟨h.2.2.1, h.1, h.2.1, h.2.2.2.1⟩

/-- C2: the first-pass matcher returns exactly the column names whose
lowercased, stripped form contains some term as a contiguous substring
(sound and complete), in the table's original column order (the result is a
sublist of the headers), and the result depends on the term list only through
membership (it is a function of the term set). -/
theorem identify_columns_spec (terms cols : List String) :
    (∀ c, c ∈ identify_columns terms cols ↔
        c ∈ cols ∧ ∃ t ∈ terms, ∃ pre post,
          pre ++ t.data ++ post = (pyStrip (pyLower c)).data)
  ∧ List.Sublist (identify_columns terms cols) cols
  ∧ ∀ terms' : List String, (∀ t, t ∈ terms ↔ t ∈ terms') →
      identify_columns terms' cols = identify_columns terms cols := by
  refine ⟨?_, List.filter_sublist cols, ?_⟩
  · intro c
    simp only [identify_columns, List.mem_filter, List.any_eq_true, strContains_iff]
  · intro terms' hset
    apply List.filter_congr
    intro c _
    rw [Bool.eq_iff_iff]
    simp only [List.any_eq_true]
    constructor
    · rintro ⟨t, ht, hsub⟩
      exact ⟨t, (hset t).mpr ht, hsub⟩
    · rintro ⟨t, ht, hsub⟩
      exact ⟨t, (hset t).mp ht, hsub⟩

/-- The spec's scenario table: columns [PatientName, DOB, Notes] with two rows. -/
def scenarioTable : Table :=
  ⟨["PatientName", "DOB", "Notes"],
   [[Cell.str "Alice", Cell.str "1990-01-01", Cell.str "seen Alice"],
    [Cell.str "Bob", Cell.str "1991-02-02", Cell.str "ok"]]⟩

/-- A table whose selected column holds the literal text "nan" and whose other
column holds a single null cell. -/
def nanTable : Table := ⟨["A", "B"], [[Cell.str "nan", Cell.null]]⟩

/-- C6 counterexample: on the scenario table with first-pass selection
[PatientName, DOB], the second pass does not return [Notes] — the membership
test is whole-cell equality, and "seen Alice" is not equal to any collected
value. -/
theorem scenario_second_pass_counterexample :
    second_pass_identification scenarioTable ["PatientName", "DOB"] ≠ some ["Notes"] := by
  decide

/-- C6 amended: on the scenario table with terms ["name", "dob"], the first
pass returns [PatientName, DOB]; the second pass on that selection returns
the empty list, because the value test compares whole stringified cells for
equality and "seen Alice" merely contains, but does not equal, "Alice". -/
theorem scenario_first_and_second_pass :
    identify_columns ["name", "dob"] scenarioTable.headers = ["PatientName", "DOB"]
  ∧ second_pass_identification scenarioTable ["PatientName", "DOB"] = some [] := by
  constructor
  · decide
  · decide

/-- C3 counterexample: the claim excludes null cells of a candidate column
from the value test, but the code stringifies them (`astype(str)`, giving
"nan") and tests them too.  In `nanTable`, column B's only cell is null, yet
B is flagged because selected column A contains the non-null text "nan". -/
theorem second_pass_counterexample_null_cells :
    second_pass_identification nanTable ["A"] = some ["B"]
  ∧ columnOf nanTable "B" = some [Cell.null] := by
  constructor
  · decide
  · decide

/-- C3 amended: when all selected names are columns, the second pass returns
a list that is empty for an empty selection, empty when every selected cell
is null, and contains a column `c` iff `c` is a non-selected column some cell
of which — stringified, null cells included (as "nan") — equals the
stringified form of some non-null cell of a selected column. -/
theorem second_pass_spec (df : Table) (sel : List String)
    (hsel : ∀ c ∈ sel, c ∈ df.headers) :
    ∃ L, second_pass_identification df sel = some L
  ∧ (sel = [] → L = [])
  ∧ ((∀ s ∈ sel, ∀ cell ∈ (columnOf df s).getD [], cell.isNull = true) → L = [])
  ∧ ∀ c, c ∈ L ↔ c ∈ df.headers ∧ c ∉ sel ∧
      ∃ cell ∈ (columnOf df c).getD [],
        ∃ s ∈ sel, ∃ v ∈ (columnOf df s).getD [],
          v.isNull = false ∧ v.pyStr = cell.pyStr := by
  obtain ⟨pii, hpii, hiff⟩ := collect_pii_some hsel
  have hrun : second_pass_identification df sel = some (df.headers.filter (fun c =>
      !sel.contains c &&
        (((columnOf df c).getD []).map Cell.pyStr).any (fun s => pii.contains s))) := by
    unfold second_pass_identification
    rw [hpii]
    rfl
  refine ⟨_, hrun, ?_, ?_, ?_⟩
  · rintro rfl
    simp only [collect_pii] at hpii
    cases hpii
    simp
  · intro hallnull
    rw [List.filter_eq_nil_iff]
    intro c _ hkeep
    rw [Bool.and_eq_true, List.any_eq_true] at hkeep
    obtain ⟨_, s', hs'mem, hs'pii⟩ := hkeep
    obtain ⟨s, hssel, cell, hcell, hnn, _⟩ :=
      (hiff s').mp (List.elem_iff.mp hs'pii)
    exact absurd (hallnull s hssel cell hcell) (by simp [hnn])
  · intro c
    simp only [List.mem_filter, Bool.and_eq_true, Bool.not_eq_true',
      List.any_eq_true, List.mem_map]
    constructor
    · rintro ⟨hch, hnsel, v', ⟨cell, hcellmem, rfl⟩, hvpii⟩
      obtain ⟨s, hssel, v, hvmem, hvnn, hveq⟩ := (hiff _).mp (List.elem_iff.mp hvpii)
      refine ⟨hch, ?_, cell, hcellmem, s, hssel, v, hvmem, hvnn, hveq⟩
      intro hmem
      have hco : sel.contains c = true := List.elem_iff.mpr hmem
      rw [hco] at hnsel
      simp at hnsel
    · rintro ⟨hch, hnsel, cell, hcellmem, s, hssel, v, hvmem, hvnn, hveq⟩
      refine ⟨hch, ?_, cell.pyStr, ⟨cell, hcellmem, rfl⟩, ?_⟩
      · rw [Bool.eq_false_iff, Ne, List.elem_iff]
        exact hnsel
      · exact List.elem_iff.mpr ((hiff cell.pyStr).mpr ⟨s, hssel, v, hvmem, hvnn, hveq⟩)

/-- Witness for C3's amended theorem on the `nanTable` example. -/
theorem second_pass_spec_witness :
    (∀ c ∈ ["A"], c ∈ nanTable.headers)
  ∧ ∃ L, second_pass_identification nanTable ["A"] = some L
      ∧ ((["A"] : List String) = [] → L = [])
      ∧ ((∀ s ∈ ["A"], ∀ cell ∈ (columnOf nanTable s).getD [], cell.isNull = true) → L = [])
      ∧ ∀ c, c ∈ L ↔ c ∈ nanTable.headers ∧ c ∉ ["A"] ∧
          ∃ cell ∈ (columnOf nanTable c).getD [],
            ∃ s ∈ ["A"], ∃ v ∈ (columnOf nanTable s).getD [],
              v.isNull = false ∧ v.pyStr = cell.pyStr :=
  ⟨by decide, second_pass_spec nanTable ["A"] (by decide)⟩

/-- C9: when every selected name is a column of the table the second pass
completes with a result list, but any selection containing an unknown column
name makes it fail (the `df[col]` key lookup), unlike the remover, which
silently ignores unknown names. -/
theorem second_pass_unknown_column (df : Table) (sel : List String) :
    ((∀ c ∈ sel, c ∈ df.headers) → ∃ L, second_pass_identification df sel = some L)
  ∧ ((∃ c ∈ sel, c ∉ df.headers) → second_pass_identification df sel = none) := by
  constructor
  · intro h
    obtain ⟨pii, hpii, _⟩ := collect_pii_some h
    refine ⟨df.headers.filter (fun c =>
      !sel.contains c &&
        (((columnOf df c).getD []).map Cell.pyStr).any (fun s => pii.contains s)), ?_⟩
    unfold second_pass_identification
    rw [hpii]
    rfl
  · intro h
    simp [second_pass_identification, collect_pii_none h]

/-- Witness for C9: a valid selection succeeds and a selection with the
unknown name "Missing" fails, on the `nanTable` example. -/
theorem second_pass_unknown_column_witness :
    (∃ L, second_pass_identification nanTable ["A"] = some L)
  ∧ second_pass_identification nanTable ["Missing"] = none :=
  ⟨(second_pass_unknown_column nanTable ["A"]).1 (by decide),
   (second_pass_unknown_column nanTable ["Missing"]).2 ⟨"Missing", by decide, by decide⟩⟩

/-- C10: null cells of candidate columns are stringified (to "nan") and
tested like any other cell; so whenever some selected column contributes the
non-null stringified value "nan", every non-selected column with at least one
null cell is flagged by the second pass. -/
theorem second_pass_flags_null_cells (df : Table) (sel : List String) (s c : String)
    (hsel : ∀ x ∈ sel, x ∈ df.headers)
    (hs : s ∈ sel)
    (hv : ∃ v ∈ (columnOf df s).getD [], v.isNull = false ∧ v.pyStr = "nan")
    (hch : c ∈ df.headers) (hcsel : c ∉ sel)
    (hnull : Cell.null ∈ (columnOf df c).getD []) :
    ∃ L, second_pass_identification df sel = some L ∧ c ∈ L := by
  obtain ⟨pii, hpii, hiff⟩ := collect_pii_some hsel
  obtain ⟨v, hvmem, hvnn, hvstr⟩ := hv
  have hrun : second_pass_identification df sel = some (df.headers.filter (fun c =>
      !sel.contains c &&
        (((columnOf df c).getD []).map Cell.pyStr).any (fun s => pii.contains s))) := by
    unfold second_pass_identification
    rw [hpii]
    rfl
  refine ⟨_, hrun, ?_⟩
  rw [List.mem_filter]
  refine ⟨hch, ?_⟩
  rw [Bool.and_eq_true, List.any_eq_true]
  constructor
  · rw [Bool.not_eq_true', Bool.eq_false_iff, Ne, List.elem_iff]
    exact hcsel
  · refine ⟨Cell.pyStr Cell.null, List.mem_map_of_mem Cell.pyStr hnull, ?_⟩
    exact List.elem_iff.mpr ((hiff (Cell.pyStr Cell.null)).mpr
      ⟨s, hs, v, hvmem, hvnn, by simpa [Cell.pyStr] using hvstr⟩)

/-- Witness for C10 on the `nanTable` example: column B, whose only cell is
null, is flagged because column A holds the text "nan". -/
theorem second_pass_flags_null_cells_witness :
    (∀ x ∈ ["A"], x ∈ nanTable.headers)
  ∧ ("A" : String) ∈ ["A"]
  ∧ (∃ v ∈ (columnOf nanTable "A").getD [], v.isNull = false ∧ v.pyStr = "nan")
  ∧ ("B" ∈ nanTable.headers ∧ "B" ∉ (["A"] : List String)
      ∧ Cell.null ∈ (columnOf nanTable "B").getD [])
  ∧ ∃ L, second_pass_identification nanTable ["A"] = some L ∧ "B" ∈ L :=
  ⟨by decide, by decide, by decide, by decide,
   second_pass_flags_null_cells nanTable ["A"] "A" "B" (by decide) (by decide)
     (by decide) (by decide) (by decide) (by decide)⟩

/-- A small rectangular table used to instantiate the export theorems. -/
def sampleTable : Table :=
  ⟨["A", "B"], [[Cell.int 1, Cell.str "x"], [Cell.int 2, Cell.str "y"]]⟩

/-- C1: when `process_file` succeeds on a (rectangular) parsed table, the
exported table has the same number of rows; its headers are the original
headers minus the union of the two selections, in original order; and, row by
row in the original order, the exported (header, cell) pairs are exactly the
source row's pairs at the retained columns, values unchanged. -/
theorem process_file_export_invariant (inputBase out : String) (df : Table)
    (s1 s2 : List String) (name : String) (t : Table)
    (hrect : ∀ r ∈ df.rows, r.length = df.headers.length)
    (hok : process_file (some (inputBase, df)) out s1 s2 = Except.ok (name, t)) :
    t.rows.length = df.rows.length
  ∧ t.headers = df.headers.filter (fun c => !(s1 ++ s2).contains c)
  ∧ List.Forall₂ (fun r r' => t.headers.zip r' =
      (df.headers.zip r).filter (fun p => !(s1 ++ s2).contains p.1)) df.rows t.rows := by
  by_cases hout : out = ""
  · simp [process_file, hout] at hok
  · simp only [process_file, hout, if_false] at hok
    rw [Except.ok.injEq, Prod.mk.injEq] at hok
    obtain ⟨-, ht⟩ := hok
    subst ht
    refine ⟨?_, ?_, ?_⟩
    · simp [dropColumns]
    · rw [show (dropColumns df (s1 ++ s2)).headers =
          df.headers.filter (keepCol (s1 ++ s2)) from rfl]
      apply List.filter_congr
      intro c _
      simp [keepCol]
    · rw [show (dropColumns df (s1 ++ s2)).rows =
          df.rows.map (dropRow df.headers (s1 ++ s2)) from rfl]
      rw [List.forall₂_map_right_iff, List.forall₂_same]
      intro r hr
      have hz := zip_filter_keep (keepCol (s1 ++ s2)) df.headers r (hrect r hr).symm
      simpa [dropColumns, dropRow, keepCol] using hz

/-- Witness for C1 on `sampleTable`: dropping column A keeps both rows and
column B with its values. -/
theorem process_file_export_invariant_witness :
    (∀ r ∈ sampleTable.rows, r.length = sampleTable.headers.length)
  ∧ process_file (some ("a.csv", sampleTable)) "b.csv" ["A"] [] =
      Except.ok ("b.csv", dropColumns sampleTable (["A"] ++ []))
  ∧ ((dropColumns sampleTable (["A"] ++ [])).rows.length = sampleTable.rows.length
      ∧ (dropColumns sampleTable (["A"] ++ [])).headers =
          sampleTable.headers.filter (fun c => !((["A"] ++ []) : List String).contains c)
      ∧ List.Forall₂ (fun r r' => (dropColumns sampleTable (["A"] ++ [])).headers.zip r' =
          (sampleTable.headers.zip r).filter
            (fun p => !((["A"] ++ []) : List String).contains p.1))
          sampleTable.rows (dropColumns sampleTable (["A"] ++ [])).rows) :=
  ⟨by decide, rfl,
   process_file_export_invariant "a.csv" "b.csv" sampleTable ["A"] [] "b.csv"
     (dropColumns sampleTable (["A"] ++ [])) (by decide) rfl⟩

/-- C4: whenever `process_file` succeeds, the name actually written differs
from the input's base name; when the requested name collides with the input
name it is the "deidentified_"-prefixed name; and writing the export into a
file store leaves the entry at the input name unchanged. -/
theorem process_file_overwrite_guard (inputBase out : String) (df : Table)
    (s1 s2 : List String) (name : String) (t : Table)
    (hok : process_file (some (inputBase, df)) out s1 s2 = Except.ok (name, t)) :
    name ≠ inputBase
  ∧ (out = inputBase → name = "deidentified_" ++ out)
  ∧ ∀ fs : String → Option Table, writeFS fs name t inputBase = fs inputBase := by
  by_cases hout : out = ""
  · simp [process_file, hout] at hok
  · simp only [process_file, hout, if_false] at hok
    rw [Except.ok.injEq, Prod.mk.injEq] at hok
    obtain ⟨hname, -⟩ := hok
    have hne : name ≠ inputBase := by
      by_cases heq : out = inputBase
      · rw [if_pos heq] at hname
        rw [← hname, heq]
        exact deidentified_ne inputBase
      · rw [if_neg heq] at hname
        rw [← hname]
        exact heq
    refine ⟨hne, ?_, ?_⟩
    · intro heq
      rw [if_pos heq] at hname
      exact hname.symm
    · intro fs
      have hne' : inputBase ≠ name := fun h => hne h.symm
      simp [writeFS, hne']

/-- Witness for C4: requesting the input's own name writes the prefixed name
and leaves the input entry of any file store unchanged. -/
theorem process_file_overwrite_guard_witness :
    process_file (some ("a.csv", sampleTable)) "a.csv" [] [] =
      Except.ok ("deidentified_" ++ "a.csv", dropColumns sampleTable ([] ++ []))
  ∧ "deidentified_" ++ "a.csv" ≠ "a.csv"
  ∧ ∀ fs : String → Option Table,
      writeFS fs ("deidentified_" ++ "a.csv") (dropColumns sampleTable ([] ++ [])) "a.csv" =
        fs "a.csv" :=
  have h := process_file_overwrite_guard "a.csv" "a.csv" sampleTable [] []
    ("deidentified_" ++ "a.csv") (dropColumns sampleTable ([] ++ [])) rfl
  ⟨rfl, h.1, h.2.2⟩

/-- C7: the remover drops exactly the requested names that are present:
the exported headers are the original ones not in the selection; names
absent from the table have no effect on the result; and `process_file`
succeeds (no error is raised or reported) for every selection, exporting the
remaining columns normally. -/
theorem drop_ignores_unknown (df : Table) (s1 s2 : List String)
    (inputBase out : String) (hout : out ≠ "") :
    (dropColumns df (s1 ++ s2)).headers =
      df.headers.filter (fun c => !(s1 ++ s2).contains c)
  ∧ dropColumns df (s1 ++ s2) =
      dropColumns df ((s1 ++ s2).filter (fun c => df.headers.contains c))
  ∧ process_file (some (inputBase, df)) out s1 s2 =
      Except.ok ((if out = inputBase then "deidentified_" ++ out else out),
        dropColumns df (s1 ++ s2)) := by
  have hcontains : ∀ c, c ∈ df.headers →
      ((s1 ++ s2).filter (fun x => df.headers.contains x)).contains c =
        (s1 ++ s2).contains c := by
    intro c hc
    rw [Bool.eq_iff_iff, List.elem_iff, List.elem_iff, List.mem_filter]
    constructor
    · rintro ⟨h1, -⟩
      exact h1
    · intro h1
      exact ⟨h1, List.elem_iff.mpr hc⟩
  refine ⟨?_, ?_, by simp [process_file, hout]⟩
  · rw [show (dropColumns df (s1 ++ s2)).headers =
        df.headers.filter (keepCol (s1 ++ s2)) from rfl]
    apply List.filter_congr
    intro c _
    simp [keepCol]
  unfold dropColumns
  congr 1
  · apply List.filter_congr
    intro c hc
    simp only [keepCol, hcontains c hc]
  · congr 1
    funext r
    unfold dropRow
    congr 1
    apply List.filter_congr
    intro p hp
    have hfst : p.1 ∈ df.headers := (List.of_mem_zip hp).1
    simp only [keepCol, hcontains p.1 hfst]

/-- Witness for C7 on `sampleTable`: the unknown name "Zzz" in the selection
changes nothing and the export still succeeds. -/
theorem drop_ignores_unknown_witness :
    (("b.csv" : String) ≠ "")
  ∧ dropColumns sampleTable (["A", "Zzz"] ++ []) =
      dropColumns sampleTable
        ((["A", "Zzz"] ++ []).filter (fun c => sampleTable.headers.contains c))
  ∧ process_file (some ("a.csv", sampleTable)) "b.csv" ["A", "Zzz"] [] =
      Except.ok ((if ("b.csv" : String) = "a.csv" then "deidentified_" ++ "b.csv" else "b.csv"),
        dropColumns sampleTable (["A", "Zzz"] ++ [])) :=
  have h := drop_ignores_unknown sampleTable ["A", "Zzz"] [] "a.csv" "b.csv" (by decide)
  ⟨by decide, h.2.1, h.2.2⟩
